import Mathlib

/-!
Verification of the embedding-indexed item store implemented in `src/main.py`
(a Telegram wardrobe bot).  The development shallowly embeds the store's data
model, its persistence layer (`load_db`, `save_db`), its mutation handlers
(`save_item`, `remove_item`) and its similarity ranker (`handle_reference`)
and proves or refutes the specification's claims about them.

Numbers appearing in the serialized JSON database are modelled as rationals
(every IEEE floating-point value is a rational); the `np.float16` conversions
applied by the program are modelled by an explicit round-to-nearest-even
function `f16round` on rationals.  Real-valued similarity scores are modelled
over `ℝ`.
-/

namespace FashionBot

/-- The error taxonomy of the specification (§7).  The reference program in
`src/main.py` surfaces none of these as typed results; the type is used by the
specification-side definitions that the code is compared against. -/
inductive StoreError
  | DuplicateId
  | DimensionMismatch
  | EmptyStore
  | DegenerateVector
  | CorruptStore
  | Busy
  | IoFailure
deriving Repr, DecidableEq

/-- An item record as built by `save_item` (src/main.py lines 118–123): a
dictionary with keys `id`, `file_path`, `embedding` and `type`.  The record is
generic in the number type carried by the embedding: the serialized form uses
`ℚ`, the similarity computation uses `ℝ`. -/
structure Item (α : Type) where
  id : String
  file_path : String
  embedding : List α
  type : String
deriving Repr, DecidableEq

/-- The wardrobe database: a dictionary `{"items": [...]}` (src/main.py).  Only
the `items` list is ever read or written. -/
structure DB (α : Type) where
  items : List (Item α)
deriving Repr, DecidableEq

/-! ## A model of `np.float16` conversion

`save_item` stores embeddings after `astype(np.float16)` (line 114), `load_db`
re-creates them with `np.array(..., dtype=np.float16)` (line 51) and
`handle_reference` reduces the query embedding the same way (line 216).  IEEE
binary16 has a 10-bit fraction, exponent range `-14..15` for normal numbers and
subnormals down to `2^-24`; conversion rounds to nearest, ties to even.
`f16round` implements exactly that on `ℚ`; overflow beyond the largest finite
value is modelled by the sentinel `±2^16` (standing for `±inf`), which none of
the theorems below exercise. -/

/-- Fuelled base-2 logarithm on `ℕ` (structurally recursive so that the kernel
can evaluate it): `log2fuel f n` is `⌊log₂ n⌋` for `n ≥ 1` given fuel `f ≥ n`. -/
def log2fuel : Nat → Nat → Nat
  | 0, _ => 0
  | fuel + 1, n => if 2 ≤ n then log2fuel fuel (n / 2) + 1 else 0

/-- Base-2 logarithm, `⌊log₂ n⌋` for `n ≥ 1`. -/
def log2 (n : Nat) : Nat := log2fuel n n

/-- `2^e` as a rational, for an integer (possibly negative) exponent. -/
def pow2z (e : ℤ) : ℚ :=
  if 0 ≤ e then ((2 : ℚ) ^ e.toNat) else 1 / ((2 : ℚ) ^ (-e).toNat)

/-- Round a rational to the nearest integer, ties to even. -/
def roundHalfEven (y : ℚ) : ℤ :=
  let n : ℤ := ⌊y⌋
  let r : ℚ := y - (n : ℚ)
  if r < 1 / 2 then n
  else if 1 / 2 < r then n + 1
  else if n % 2 = 0 then n else n + 1

/-- Conversion of a rational to the nearest IEEE binary16 value (the value-level
model of `np.float16(x)`): round-to-nearest-even at the precision the binade of
`x` affords, with subnormals below `2^-14` rounded at fixed granularity `2^-24`
and overflow modelled by `±2^16`. -/
def f16round (x : ℚ) : ℚ :=
  if x = 0 then 0
  else
    let s : ℚ := if x < 0 then -1 else 1
    let a : ℚ := |x|
    if a < pow2z (-14) then
      s * (roundHalfEven (a / pow2z (-24)) : ℚ) * pow2z (-24)
    else
      let e : ℤ := (log2 (Int.toNat ⌊a * pow2z 14⌋) : ℤ) - 14
      if 15 < e then s * pow2z 16
      else
        let u : ℚ := pow2z (e - 10)
        s * (roundHalfEven (a / u) : ℚ) * u

/-! ## Persistence layer (`load_db` / `save_db`, src/main.py lines 43–70)

The durable file is modelled at value level: the serialized JSON form is
determined by the sequence of records and the numbers in their embedding
lists, so a `DB ℚ` stands for the file's contents. -/

/-- The conversion `load_db` applies to each loaded record (line 51):
`item["embedding"] = np.array(item["embedding"], dtype=np.float16)`. -/
def loadItem (it : Item ℚ) : Item ℚ :=
  { it with embedding := it.embedding.map f16round }

/-- `load_db` on a well-formed durable file (lines 46–52): parse and convert
every embedding to float16. -/
def load_db (db : DB ℚ) : DB ℚ :=
  ⟨db.items.map loadItem⟩

/-- The state of the durable file `wardrobe_db.json` as `load_db` finds it:
missing, present but unparseable (`json.load` raises), or well formed. -/
inductive FileState (α : Type)
  | missing
  | corrupt
  | good (db : DB α)

/-- Full behaviour of `load_db` (src/main.py lines 43–55): a missing file falls
through to `return {"items": []}`; a parse failure is caught by the blanket
`except`, logged, and also falls through to `return {"items": []}`; a good file
is parsed and converted. -/
def load_db_file (fs : FileState ℚ) : DB ℚ :=
  match fs with
  | .missing => ⟨[]⟩
  | .corrupt => ⟨[]⟩
  | .good db => load_db db

/-- Modelled from the spec (§4.3 failure semantics): the load the specification
prescribes, distinguishing cold start from corruption: a missing file is an
empty collection, an unparseable file is a `CorruptStore` error. -/
def load_spec (fs : FileState ℚ) : Except StoreError (DB ℚ) :=
  match fs with
  | .missing => .ok ⟨[]⟩
  | .corrupt => .error .CorruptStore
  | .good db => .ok (load_db db)

/-- `save_db` at value level (src/main.py lines 57–68): copy every record,
replacing each numpy embedding by `tolist()`.  `tolist()` on a float16 array is
exact (each float16 value is returned as the same real number), so at value
level the serialized form keeps every number unchanged. -/
def save_db (db : DB ℚ) : DB ℚ :=
  ⟨db.items.map (fun it => { it with embedding := it.embedding.map (fun x => x) })⟩

/-- The contents of the durable file at each point while `save_db` runs.
`save_db` writes in place: `open(DB_FILE, 'w')` (line 67) truncates
`wardrobe_db.json` to empty before `json.dump` writes the new state — there is
no temporary file and no atomic rename.  `none` models the truncated (empty,
unparseable-as-a-collection) file between the two steps. -/
def saveFileTrace (old new : DB ℚ) : List (Option (DB ℚ)) :=
  [some old, none, some new]

/-! ## Mutations (`save_item`, `remove_item`) -/

/-- The database mutation performed by the `save_item` handler
(src/main.py lines 117–124) expressed against the snapshot its `load_db` call
returned: unconditionally append the new record and write the whole snapshot
back with `save_db`.  There is no duplicate-id check. -/
def save_item_add (snapshot : DB ℚ) (it : Item ℚ) : DB ℚ :=
  ⟨snapshot.items ++ [it]⟩

/-- The interleaving of two concurrent `save_item` handlers in which both call
`load_db` on the same durable state `s0` before either calls `save_db` (the
handlers share no lock).  Handler A writes `s0 + [a]`; handler B then writes
`s0 + [b]`, overwriting A's file wholesale: the durable state after both
handlers finish is the value returned here. -/
def lostUpdateRun (s0 : DB ℚ) (a b : Item ℚ) : DB ℚ :=
  let readA := s0
  let readB := s0
  let _afterA := save_item_add readA a
  let afterB := save_item_add readB b
  afterB

/-- The `remove_item` handler's effect on the store (src/main.py lines
184–194): filter out every record whose id equals the argument; if the count
shrank, persist with `save_db` and report success, otherwise report not found
and do not write.  Result: (removed?, durable state afterwards, wrote?). -/
def remove_item (item_id : String) (db : DB ℚ) : Bool × DB ℚ × Bool :=
  let items' := db.items.filter (fun it => it.id ≠ item_id)
  if items'.length < db.items.length then (true, ⟨items'⟩, true)
  else (false, db, false)

/-! ## The similarity ranker (`handle_reference`, src/main.py lines 199–243)

`handle_reference` scores every stored item against the query embedding with
cosine similarity, sorts the `(score, item)` pairs with Python's
`list.sort(reverse=True, key=lambda x: x[0])` — a stable sort, so pairs with
equal scores keep their original collection order — and slices the first
three.  CPython's stable descending sort is modelled by a stable insertion
sort `sortDesc`: the unique permutation that is non-increasing on keys and
keeps the original relative order of equal keys. -/

section StableSort

variable {α β : Type} [LinearOrder β]

/-- Insert `x` (an element that precedes all of `l` in the original list) into
the already-sorted `l`: `x` goes before the first element whose key is at most
`key x`, so among equal keys the earlier element stays first. -/
def insertDesc (key : α → β) (x : α) : List α → List α
  | [] => [x]
  | h :: t => if key h ≤ key x then x :: h :: t else h :: insertDesc key x t

/-- Stable descending sort by `key` (the model of CPython's
`sort(reverse=True, key=...)`). -/
def sortDesc (key : α → β) : List α → List α
  | [] => []
  | x :: xs => insertDesc key x (sortDesc key xs)

end StableSort

/-- Dot product of two embedding vectors (`np.dot`, line 223). -/
def dot : List ℝ → List ℝ → ℝ
  | x :: xs, y :: ys => x * y + dot xs ys
  | _, _ => 0

/-- Sum of squares of a vector's entries. -/
def sumSq (v : List ℝ) : ℝ := dot v v

/-- Euclidean magnitude of a vector (`np.linalg.norm`, line 223). -/
noncomputable def vnorm (v : List ℝ) : ℝ := Real.sqrt (sumSq v)

/-- Cosine similarity as computed on line 223:
`np.dot(q, v) / (np.linalg.norm(q) * np.linalg.norm(v))`. -/
noncomputable def cosSim (q v : List ℝ) : ℝ := dot q v / (vnorm q * vnorm v)

/-- The `similarities` list built on lines 219–224: one `(score, item)` pair
per stored item, in collection order.  (Every record written by `save_item`
carries an embedding, so the `if "embedding" in item` guard always passes.) -/
noncomputable def similarities (q : List ℝ) (items : List (Item ℝ)) :
    List (ℝ × Item ℝ) :=
  items.map (fun it => (cosSim q it.embedding, it))

/-- The ranked output of `handle_reference` (lines 226–228): the similarity
pairs sorted stably by descending score, sliced to the first three
(`similarities[:3]`; the reply renders both the item and its score from these
pairs). -/
noncomputable def rank (q : List ℝ) (items : List (Item ℝ)) : List (ℝ × Item ℝ) :=
  (sortDesc Prod.fst (similarities q items)).take 3

/-- Modelled from the spec (§4.2 degenerate case): the ranker the
specification prescribes, which rejects an all-zero vector on either side with
`DegenerateVector` instead of dividing by a zero magnitude. -/
noncomputable def rankSpec (q : List ℝ) (items : List (Item ℝ)) :
    Except StoreError (List (ℝ × Item ℝ)) :=
  if vnorm q = 0 ∨ ∃ it ∈ items, vnorm it.embedding = 0 then
    .error .DegenerateVector
  else
    .ok (rank q items)

/-! ## Precision of the similarity operands (claim C9)

`save_item` stores `img_emb.astype(np.float16)` (line 114), `load_db` rebuilds
embeddings as float16 arrays (line 51) and `handle_reference` reduces the
query embedding with `astype(np.float16)` (line 216) before scoring: both
similarity operands are 16-bit-rounded values and no promotion back to the
encoder's full-precision output happens anywhere. -/

/-- The embedding of a stored item as the ranker sees it, given the
full-precision encoder output: reduced to float16 (lines 51 and 114). -/
def storedEmbedding (e : List ℚ) : List ℚ := e.map f16round

/-- The query operand as the ranker sees it, given the full-precision encoder
output: reduced to float16 (line 216). -/
def codeQueryOperand (q : List ℚ) : List ℚ := q.map f16round

/-- Cosine similarity of two full-precision (rational-valued) vectors,
computed over ℝ: the score the spec's "promote to full precision before
arithmetic" discipline would produce. -/
noncomputable def fullSim (q v : List ℚ) : ℝ :=
  cosSim (q.map (fun x => (x : ℝ))) (v.map (fun x => (x : ℝ)))

/-- The similarity score the code's pipeline produces for encoder outputs
`q` (query) and `v` (stored item): cosine similarity of the 16-bit-rounded
operands. -/
noncomputable def codeSim (q v : List ℚ) : ℝ :=
  fullSim (codeQueryOperand q) (storedEmbedding v)

/-! ## Helper lemmas -/

/-- Filtering to the mismatching ids shrinks the list exactly when some record
carries the removed id (the `if len(db["items"]) < initial_count` test of
`remove_item`). -/
lemma filter_ne_length_lt_iff (item_id : String) (l : List (Item ℚ)) :
    (l.filter (fun it => it.id ≠ item_id)).length < l.length ↔
      ∃ it ∈ l, it.id = item_id := by
  induction l with
  | nil => simp
  | cons h t ih =>
    by_cases hc : h.id = item_id
    · have h1 : List.filter (fun it => it.id ≠ item_id) (h :: t)
          = List.filter (fun it => it.id ≠ item_id) t := by
        simp [List.filter_cons, hc]
      constructor
      · intro _
        exact ⟨h, List.mem_cons_self h t, hc⟩
      · intro _
        rw [h1, List.length_cons]
        exact Nat.lt_succ_of_le (List.length_filter_le _ t)
    · have h1 : List.filter (fun it => it.id ≠ item_id) (h :: t)
          = h :: List.filter (fun it => it.id ≠ item_id) t := by
        simp [List.filter_cons, hc]
      rw [h1, List.length_cons, List.length_cons, Nat.succ_lt_succ_iff, ih]
      constructor
      · rintro ⟨it, hit, hid⟩
        exact ⟨it, List.mem_cons_of_mem h hit, hid⟩
      · rintro ⟨it, hit, hid⟩
        rcases List.mem_cons.mp hit with rfl | hit'
        · exact absurd hid hc
        · exact ⟨it, hit', hid⟩

/-- A list whose records all miss the removed id passes through the filter
unchanged. -/
lemma filter_ne_of_not_mem (item_id : String) (l : List (Item ℚ))
    (h : ∀ it ∈ l, it.id ≠ item_id) :
    l.filter (fun it => it.id ≠ item_id) = l := by
  refine List.filter_eq_self.mpr ?_
  intro a ha
  simpa using h a ha

section StableSortLemmas

variable {α β : Type} [LinearOrder β]

lemma insertDesc_perm (key : α → β) (x : α) (l : List α) :
    List.Perm (insertDesc key x l) (x :: l) := by
  induction l with
  | nil => exact List.Perm.refl _
  | cons h t ih =>
    simp only [insertDesc]
    by_cases hc : key h ≤ key x
    · rw [if_pos hc]
    · rw [if_neg hc]
      exact (ih.cons h).trans (List.Perm.swap x h t)

lemma sortDesc_perm (key : α → β) (l : List α) :
    List.Perm (sortDesc key l) l := by
  induction l with
  | nil => exact List.Perm.refl _
  | cons x xs ih =>
    simp only [sortDesc]
    exact (insertDesc_perm key x (sortDesc key xs)).trans (ih.cons x)

lemma insertDesc_pairwise (key : α → β) (x : α) (l : List α)
    (hl : List.Pairwise (fun a b => key b ≤ key a) l) :
    List.Pairwise (fun a b => key b ≤ key a) (insertDesc key x l) := by
  induction l with
  | nil => simp [insertDesc]
  | cons h t ih =>
    rcases List.pairwise_cons.mp hl with ⟨hh, ht⟩
    simp only [insertDesc]
    by_cases hc : key h ≤ key x
    · rw [if_pos hc]
      refine List.pairwise_cons.mpr ⟨?_, hl⟩
      intro y hy
      rcases List.mem_cons.mp hy with rfl | hy'
      · exact hc
      · exact le_trans (hh y hy') hc
    · rw [if_neg hc]
      refine List.pairwise_cons.mpr ⟨?_, ih ht⟩
      intro y hy
      rcases List.mem_cons.mp ((insertDesc_perm key x t).mem_iff.mp hy) with rfl | hy'
      · exact le_of_not_le hc
      · exact hh y hy'

lemma sortDesc_pairwise (key : α → β) (l : List α) :
    List.Pairwise (fun a b => key b ≤ key a) (sortDesc key l) := by
  induction l with
  | nil => simp [sortDesc]
  | cons x xs ih =>
    simp only [sortDesc]
    exact insertDesc_pairwise key x (sortDesc key xs) ih

/-- Stability of the insertion step: restricted to any one key value, inserting
keeps the original order (the inserted element passes only elements with
strictly larger keys, never an equal one). -/
lemma insertDesc_filter_key [DecidableEq β] (key : α → β) (x : α) (l : List α)
    (c : β) :
    (insertDesc key x l).filter (fun a => key a = c) =
      (x :: l).filter (fun a => key a = c) := by
  induction l with
  | nil => rfl
  | cons h t ih =>
    simp only [insertDesc]
    by_cases hc : key h ≤ key x
    · rw [if_pos hc]
    · rw [if_neg hc]
      have hxh : key x < key h := lt_of_not_le hc
      by_cases hhc : key h = c
      · have hxc : ¬(key x = c) := by
          rw [← hhc]
          exact ne_of_lt hxh
        simp [List.filter_cons, hhc, hxc, ih]
      · simp [List.filter_cons, hhc, ih]

/-- Stability of the sort: restricted to any one key value the sorted list is
the original list (equal scores keep collection order). -/
lemma sortDesc_filter_key [DecidableEq β] (key : α → β) (l : List α) (c : β) :
    (sortDesc key l).filter (fun a => key a = c) =
      l.filter (fun a => key a = c) := by
  induction l with
  | nil => rfl
  | cons x xs ih =>
    simp only [sortDesc]
    rw [insertDesc_filter_key]
    simp only [List.filter_cons, ih]

lemma pairwise_take_drop {γ : Type} {R : γ → γ → Prop} {l : List γ}
    (h : List.Pairwise R l) (k : ℕ) :
    ∀ a ∈ l.take k, ∀ b ∈ l.drop k, R a b := by
  have h2 : List.Pairwise R (l.take k ++ l.drop k) := by
    rw [List.take_append_drop]
    exact h
  exact (List.pairwise_append.mp h2).2.2

end StableSortLemmas

lemma rank_length (q : List ℝ) (items : List (Item ℝ)) :
    (rank q items).length = min 3 items.length := by
  rw [rank, List.length_take, (sortDesc_perm Prod.fst (similarities q items)).length_eq]
  simp [similarities]

lemma rank_mem (q : List ℝ) (items : List (Item ℝ)) :
    ∀ p ∈ rank q items, p.1 = cosSim q p.2.embedding ∧ p.2 ∈ items := by
  intro p hp
  have h1 : p ∈ sortDesc Prod.fst (similarities q items) :=
    List.mem_of_mem_take hp
  have h2 : p ∈ similarities q items :=
    (sortDesc_perm Prod.fst (similarities q items)).mem_iff.mp h1
  simp only [similarities, List.mem_map] at h2
  rcases h2 with ⟨it, hit, rfl⟩
  exact ⟨rfl, hit⟩

lemma loadItem_eq_self (it : Item ℚ) (h : ∀ x ∈ it.embedding, f16round x = x) :
    loadItem it = it := by
  cases it with
  | mk id fp emb ty =>
    have hemb : emb.map f16round = emb := by
      have h2 : emb.map f16round = emb.map (fun x => x) :=
        List.map_congr_left (by intro a ha; simpa using h a ha)
      simpa using h2
    simp only [loadItem]
    rw [hemb]

lemma load_db_eq_self (db : DB ℚ)
    (h : ∀ it ∈ db.items, ∀ x ∈ it.embedding, f16round x = x) :
    load_db db = db := by
  cases db with
  | mk items =>
    have hmap : items.map loadItem = items := by
      have h2 : items.map loadItem = items.map (fun it => it) :=
        List.map_congr_left (by intro it hit; exact loadItem_eq_self it (h it hit))
      simpa using h2
    simp only [load_db]
    rw [hmap]

lemma save_db_eq_self (db : DB ℚ) : save_db db = db := by
  cases db with
  | mk items =>
    simp only [save_db]
    have h2 : items.map (fun it => { it with embedding := it.embedding.map (fun x => x) })
        = items.map (fun it => it) := by
      refine List.map_congr_left ?_
      intro it _
      cases it
      simp
    rw [DB.mk.injEq]
    simpa using h2

/-! ## The claims -/

/-- C1 (code_bug): `save_item` performs load → append → save with no lock
(src/main.py lines 117–124).  In the interleaving where two concurrent
`save_item` handlers both call `load_db` on the empty store before either
calls `save_db`, the second `save_db` overwrites the first handler's write:
only item "B" survives and item "A" is lost, refuting "N concurrent add
calls with distinct ids followed by list() return all N items". -/
theorem lost_update_two_concurrent_adds :
    lostUpdateRun ⟨[]⟩ ⟨"A", "temp_images/A.jpg", [1], "clothes"⟩
        ⟨"B", "temp_images/B.jpg", [2], "clothes"⟩
      = ⟨[⟨"B", "temp_images/B.jpg", [2], "clothes"⟩]⟩
    ∧ (⟨"A", "temp_images/A.jpg", [1], "clothes"⟩ : Item ℚ)
        ∉ (lostUpdateRun ⟨[]⟩ ⟨"A", "temp_images/A.jpg", [1], "clothes"⟩
            ⟨"B", "temp_images/B.jpg", [2], "clothes"⟩).items := by
  constructor
  · rfl
  · simp [lostUpdateRun, save_item_add]

/-- C2 (code_bug): `save_db` writes the durable file in place through
`open(DB_FILE, 'w')`, which truncates it before `json.dump` runs: mid-write
(index 1 of the trace) the durable file holds no parseable collection at all,
so a failure there destroys the old durable state — there is no temporary
file and no atomic replace. -/
theorem save_truncates_in_place :
    (saveFileTrace ⟨[⟨"a", "p", [1], "clothes"⟩]⟩
        ⟨[⟨"a", "p", [1], "clothes"⟩, ⟨"b", "q", [2], "clothes"⟩]⟩)[1]?
      = some none
    ∧ (none : Option (DB ℚ)) ≠ some ⟨[⟨"a", "p", [1], "clothes"⟩]⟩ := by
  exact ⟨rfl, by simp⟩

/-- C3 (code_bug): `load_db` catches the parse failure of a corrupt durable
file and returns `{"items": []}` — exactly what it returns for a missing file —
instead of the `CorruptStore` error the specification demands (which
`load_spec`, modelled from the spec, does return). -/
theorem corrupt_file_loads_as_empty :
    load_db_file FileState.corrupt = (⟨[]⟩ : DB ℚ)
    ∧ load_db_file FileState.missing = (⟨[]⟩ : DB ℚ)
    ∧ load_spec FileState.corrupt = Except.error StoreError.CorruptStore := by
  exact ⟨rfl, rfl, rfl⟩

/-- C4 counterexample: adding an item whose id "a" is already present does not
return `DuplicateId` and does not leave the collection unchanged — `save_item`
appends unconditionally, so the store ends up with two records of id "a". -/
theorem duplicate_id_appended_cx :
    save_item_add ⟨[⟨"a", "p", [1], "clothes"⟩]⟩ ⟨"a", "p2", [2], "clothes"⟩
      ≠ ⟨[⟨"a", "p", [1], "clothes"⟩]⟩
    ∧ ((save_item_add ⟨[⟨"a", "p", [1], "clothes"⟩]⟩
          ⟨"a", "p2", [2], "clothes"⟩).items.map Item.id)
      = ["a", "a"] := by
  constructor
  · intro hcontra
    have hlen := congrArg (fun d => d.items.length) hcontra
    simp [save_item_add] at hlen
  · rfl

/-- C4 (amended): `save_item` appends the new record unconditionally — no
duplicate-id check exists — so an add whose id is already present grows the
collection and leaves at least two records carrying that id. -/
theorem add_appends_duplicate (db : DB ℚ) (it : Item ℚ)
    (h : it.id ∈ db.items.map Item.id) :
    (save_item_add db it).items = db.items ++ [it]
    ∧ ((save_item_add db it).items.map Item.id).count it.id
        = (db.items.map Item.id).count it.id + 1
    ∧ 2 ≤ ((save_item_add db it).items.map Item.id).count it.id := by
  have hmap : (save_item_add db it).items.map Item.id
      = db.items.map Item.id ++ [it.id] := by
    simp [save_item_add]
  have hcount : ((save_item_add db it).items.map Item.id).count it.id
      = (db.items.map Item.id).count it.id + 1 := by
    rw [hmap, List.count_append]
    simp
  have h1 : 1 ≤ (db.items.map Item.id).count it.id :=
    List.one_le_count_iff.mpr h
  exact ⟨rfl, hcount, by omega⟩

/-- Witness for C4's amended claim at a concrete store: id "a" is present, and
after the duplicate add the id "a" occurs at least twice. -/
theorem add_appends_duplicate_witness :
    ("a" ∈ ({ items := [⟨"a", "p", [1], "clothes"⟩] } : DB ℚ).items.map Item.id)
    ∧ 2 ≤ ((save_item_add { items := [⟨"a", "p", [1], "clothes"⟩] }
          ⟨"a", "p2", [2], "clothes"⟩).items.map Item.id).count "a" := by
  have hmem : "a" ∈ ({ items := [⟨"a", "p", [1], "clothes"⟩] } : DB ℚ).items.map Item.id := by
    simp
  have h := add_appends_duplicate { items := [⟨"a", "p", [1], "clothes"⟩] }
    ⟨"a", "p2", [2], "clothes"⟩ hmem
  exact ⟨hmem, h.2.2⟩

/-- C6: `remove_item` returns success exactly when a record with the id was
present, in which case it persists the filtered collection; when the id is
absent it reports not-found, performs no write and leaves the durable state
untouched (not an error). -/
theorem remove_present_absent (item_id : String) (db : DB ℚ) :
    ((∃ it ∈ db.items, it.id = item_id) →
      remove_item item_id db
        = (true, ⟨db.items.filter (fun it => it.id ≠ item_id)⟩, true))
    ∧ ((∀ it ∈ db.items, it.id ≠ item_id) →
      remove_item item_id db = (false, db, false)) := by
  constructor
  · intro hex
    have hlt := (filter_ne_length_lt_iff item_id db.items).mpr hex
    simp only [ne_eq, decide_not] at hlt
    simp [remove_item, hlt]
  · intro hall
    have heq := filter_ne_of_not_mem item_id db.items hall
    simp only [ne_eq, decide_not] at heq
    simp [remove_item, heq]

/-- Witness for C6 at a concrete store holding one record of id "a": removing
"a" succeeds, persists the emptied collection; removing "b" reports not found
and changes nothing. -/
theorem remove_present_absent_witness :
    remove_item "a" { items := [⟨"a", "p", [1], "clothes"⟩] } = (true, ⟨[]⟩, true)
    ∧ remove_item "b" { items := [⟨"a", "p", [1], "clothes"⟩] }
      = (false, { items := [⟨"a", "p", [1], "clothes"⟩] }, false) := by
  constructor
  · have h := (remove_present_absent "a" { items := [⟨"a", "p", [1], "clothes"⟩] }).1
      ⟨⟨"a", "p", [1], "clothes"⟩, by simp, rfl⟩
    rw [h]
    simp
  · refine (remove_present_absent "b" { items := [⟨"a", "p", [1], "clothes"⟩] }).2 ?_
    intro it hit
    simp only [List.mem_singleton] at hit
    rw [hit]
    simp

/-- C7: loading a durable state whose numbers are all float16 values (as every
state written by the program's own `save_db` is) and saving it again
reproduces the state exactly: persistence round-trips losslessly at the
reduced 16-bit precision when no mutation happens in between. -/
theorem save_load_roundtrip (db : DB ℚ)
    (h : ∀ it ∈ db.items, ∀ x ∈ it.embedding, f16round x = x) :
    save_db (load_db db) = db := by
  rw [load_db_eq_self db h, save_db_eq_self db]

set_option maxRecDepth 100000 in
/-- Witness for C7 at a concrete durable state whose embedding entries 1, 1/2
and -3/2 are all exact float16 values. -/
theorem save_load_roundtrip_witness :
    (∀ it ∈ ({ items := [⟨"a", "p", [1, 1/2, -(3/2)], "clothes"⟩] } : DB ℚ).items,
      ∀ x ∈ it.embedding, f16round x = x)
    ∧ save_db (load_db { items := [⟨"a", "p", [1, 1/2, -(3/2)], "clothes"⟩] })
      = { items := [⟨"a", "p", [1, 1/2, -(3/2)], "clothes"⟩] } := by
  have h : ∀ it ∈ ({ items := [⟨"a", "p", [1, 1/2, -(3/2)], "clothes"⟩] } : DB ℚ).items,
      ∀ x ∈ it.embedding, f16round x = x := by
    intro it hit x hx
    simp only [List.mem_singleton] at hit
    rw [hit] at hx
    simp only [List.mem_cons, List.mem_singleton, List.not_mem_nil, or_false] at hx
    rcases hx with rfl | rfl | rfl
    · with_unfolding_all decide
    · with_unfolding_all decide
    · with_unfolding_all decide
  exact ⟨h, save_load_roundtrip _ h⟩

/-- C10: one `remove_item` call filters out every record whose id equals the
argument (not only the first match); the surviving records are exactly the
non-matching ones in their original relative order (a sublist of the original
collection). -/
theorem remove_filters_all_matches (item_id : String) (db : DB ℚ) :
    ((remove_item item_id db).2.1).items
        = db.items.filter (fun it => it.id ≠ item_id)
    ∧ List.Sublist ((remove_item item_id db).2.1).items db.items
    ∧ ∀ it ∈ ((remove_item item_id db).2.1).items, it.id ≠ item_id := by
  have hsub : List.Sublist (db.items.filter (fun it => it.id ≠ item_id)) db.items :=
    List.filter_sublist _
  rcases Nat.lt_or_ge (db.items.filter (fun it => it.id ≠ item_id)).length
      db.items.length with hlt | hge
  · have hres : (remove_item item_id db).2.1
        = ⟨db.items.filter (fun it => it.id ≠ item_id)⟩ := by
      have hlt' := hlt
      simp only [ne_eq, decide_not] at hlt'
      simp [remove_item, hlt']
    rw [hres]
    refine ⟨rfl, hsub, ?_⟩
    intro it hit
    simpa using List.of_mem_filter hit
  · have heq : db.items.filter (fun it => it.id ≠ item_id) = db.items :=
      hsub.eq_of_length (le_antisymm (List.length_filter_le _ _) hge)
    have hres : (remove_item item_id db).2.1 = db := by
      have heq' := heq
      simp only [ne_eq, decide_not] at heq'
      simp [remove_item, heq']
    rw [hres]
    refine ⟨heq.symm, List.Sublist.refl _, ?_⟩
    intro it hit
    rw [← heq] at hit
    simpa using List.of_mem_filter hit

lemma vnorm_ne_zero_of_sumSq_pos (v : List ℝ) (h : 0 < sumSq v) : vnorm v ≠ 0 := by
  simp only [vnorm]
  exact ne_of_gt (Real.sqrt_pos.mpr h)

/-- C5: on a non-empty store with well-defined magnitudes, `handle_reference`
returns the pairs scored by cosine similarity, stably sorted by descending
score (the full sorted list is a permutation of the collection-ordered score
list, is non-increasing on scores, and restricted to any one score value
equals the collection-ordered list — ties keep collection order), sliced to
the top 3: the output length is `min 3 n` (all items when fewer than 3) and
every dropped pair scores no higher than every returned pair. -/
theorem query_ranking (q : List ℝ) (items : List (Item ℝ))
    (hne : items ≠ []) (hq : vnorm q ≠ 0)
    (hv : ∀ it ∈ items, vnorm it.embedding ≠ 0) :
    rank q items = (sortDesc Prod.fst (similarities q items)).take 3
    ∧ List.Perm (sortDesc Prod.fst (similarities q items)) (similarities q items)
    ∧ List.Pairwise (fun a b : ℝ × Item ℝ => b.1 ≤ a.1)
        (sortDesc Prod.fst (similarities q items))
    ∧ (∀ c : ℝ, (sortDesc Prod.fst (similarities q items)).filter (fun a => a.1 = c)
        = (similarities q items).filter (fun a => a.1 = c))
    ∧ (rank q items).length = min 3 items.length
    ∧ (∀ p ∈ rank q items, p.1 = cosSim q p.2.embedding ∧ p.2 ∈ items)
    ∧ (∀ a ∈ rank q items, ∀ b ∈ (sortDesc Prod.fst (similarities q items)).drop 3,
        b.1 ≤ a.1) := by
  refine ⟨rfl, sortDesc_perm _ _, sortDesc_pairwise _ _, ?_, rank_length q items,
    rank_mem q items, ?_⟩
  · intro c
    exact sortDesc_filter_key Prod.fst (similarities q items) c
  · intro a ha b hb
    exact pairwise_take_drop (sortDesc_pairwise Prod.fst (similarities q items)) 3 a ha b hb

/-- Witness for C5 at the spec's own example: query `[1,0]` against embeddings
`[1,0]`, `[0,1]`, `[0.9,0.1]` (all of nonzero magnitude) yields all three
pairs. -/
theorem query_ranking_witness :
    (([⟨"A", "pa", [1, 0], "clothes"⟩, ⟨"B", "pb", [0, 1], "clothes"⟩,
        ⟨"C", "pc", [9/10, 1/10], "clothes"⟩] : List (Item ℝ)) ≠ [])
    ∧ vnorm [1, 0] ≠ 0
    ∧ (rank [1, 0] [⟨"A", "pa", [1, 0], "clothes"⟩, ⟨"B", "pb", [0, 1], "clothes"⟩,
        ⟨"C", "pc", [9/10, 1/10], "clothes"⟩]).length
      = min 3 ([⟨"A", "pa", ([1, 0] : List ℝ), "clothes"⟩,
          ⟨"B", "pb", [0, 1], "clothes"⟩,
          ⟨"C", "pc", [9/10, 1/10], "clothes"⟩] : List (Item ℝ)).length := by
  have hne : ([⟨"A", "pa", [1, 0], "clothes"⟩, ⟨"B", "pb", [0, 1], "clothes"⟩,
      ⟨"C", "pc", [9/10, 1/10], "clothes"⟩] : List (Item ℝ)) ≠ [] := by simp
  have hq : vnorm [1, 0] ≠ 0 :=
    vnorm_ne_zero_of_sumSq_pos _ (by norm_num [sumSq, dot])
  have hv : ∀ it ∈ ([⟨"A", "pa", [1, 0], "clothes"⟩, ⟨"B", "pb", [0, 1], "clothes"⟩,
      ⟨"C", "pc", [9/10, 1/10], "clothes"⟩] : List (Item ℝ)), vnorm it.embedding ≠ 0 := by
    intro it hit
    rcases List.mem_cons.mp hit with rfl | hit'
    · exact vnorm_ne_zero_of_sumSq_pos _ (by norm_num [sumSq, dot])
    rcases List.mem_cons.mp hit' with rfl | hit''
    · exact vnorm_ne_zero_of_sumSq_pos _ (by norm_num [sumSq, dot])
    rcases List.mem_singleton.mp hit'' with rfl
    exact vnorm_ne_zero_of_sumSq_pos _ (by norm_num [sumSq, dot])
  exact ⟨hne, hq, (query_ranking _ _ hne hq hv).2.2.2.2.1⟩

/-- C8 counterexample: an all-zero query vector is not rejected — the code
divides by the zero magnitude anyway and returns a ranked pair for the stored
item, while the specification's ranker (`rankSpec`) returns the
`DegenerateVector` error. -/
theorem zero_vector_ranked_cx :
    (rank [0, 0] [⟨"a", "p", [1, 0], "clothes"⟩]).length = 1
    ∧ rankSpec [0, 0] [⟨"a", "p", [1, 0], "clothes"⟩]
        = Except.error StoreError.DegenerateVector := by
  have h0 : vnorm [0, 0] = 0 := by
    simp [vnorm, sumSq, dot]
  constructor
  · rw [rank_length]
    norm_num
  · simp only [rankSpec]
    rw [if_pos (Or.inl h0)]

/-- C8 (amended): no degenerate-vector check exists in `handle_reference`: the
all-zero query vector of any dimension is processed like any other — every
item is still scored (by the division with a zero magnitude) and `min 3 n`
ranked pairs are returned instead of an error. -/
theorem zero_vector_no_error (d : ℕ) (items : List (Item ℝ)) :
    (rank (List.replicate d 0) items).length = min 3 items.length
    ∧ ∀ p ∈ rank (List.replicate d 0) items,
        p.1 = cosSim (List.replicate d 0) p.2.embedding ∧ p.2 ∈ items :=
  ⟨rank_length _ items, rank_mem _ items⟩

/-- Witness for C8's amended claim: the 2-dimensional zero query against one
stored item still yields one ranked pair. -/
theorem zero_vector_no_error_witness :
    (rank (List.replicate 2 0) [⟨"a", "p", [1, 0], "clothes"⟩]).length = min 3 1 :=
  (zero_vector_no_error 2 [⟨"a", "p", [1, 0], "clothes"⟩]).1

set_option maxRecDepth 100000 in
lemma f16round_near_one : f16round (2049/2048 : ℚ) = 1 := by
  with_unfolding_all decide

set_option maxRecDepth 100000 in
lemma f16round_one : f16round (1 : ℚ) = 1 := by
  with_unfolding_all decide

set_option maxRecDepth 100000 in
lemma f16round_neg_one : f16round (-1 : ℚ) = -1 := by
  with_unfolding_all decide

lemma codeSim_cx_eval : codeSim [2049/2048, 1] [1, -1] = 0 := by
  have h1 : codeQueryOperand [2049/2048, 1] = [1, 1] := by
    simp [codeQueryOperand, f16round_near_one, f16round_one]
  have h2 : storedEmbedding [1, -1] = [1, -1] := by
    simp [storedEmbedding, f16round_one, f16round_neg_one]
  rw [codeSim, h1, h2]
  rw [fullSim, cosSim]
  have hdot : dot (([1, 1] : List ℚ).map (fun x => (x : ℝ)))
      (([1, -1] : List ℚ).map (fun x => (x : ℝ))) = 0 := by
    simp [dot]
  rw [hdot, zero_div]

lemma fullSim_cx_pos : 0 < fullSim [2049/2048, 1] [1, -1] := by
  rw [fullSim, cosSim]
  apply div_pos
  · have : dot (([2049/2048, 1] : List ℚ).map (fun x => (x : ℝ)))
        (([1, -1] : List ℚ).map (fun x => (x : ℝ))) = 1/2048 := by
      simp [dot]
      norm_num
    rw [this]
    norm_num
  · apply mul_pos
    · rw [vnorm]
      apply Real.sqrt_pos.mpr
      simp [sumSq, dot]
      norm_num
    · rw [vnorm]
      apply Real.sqrt_pos.mpr
      simp [sumSq, dot]

/-- C9 counterexample: for the encoder outputs `q = [1 + 2^-11, 1]` and
`v = [1, -1]` the code's score — cosine similarity of the float16-reduced
operands `[1,1]` and `[1,-1]` — is 0, while the full-precision score is
strictly positive: the similarity is not computed on promoted full-precision
operands. -/
theorem f16_similarity_cx :
    codeSim [2049/2048, 1] [1, -1] = 0
    ∧ fullSim [2049/2048, 1] [1, -1] ≠ 0 :=
  ⟨codeSim_cx_eval, ne_of_gt fullSim_cx_pos⟩

/-- C9 (amended): embeddings are stored at 16-bit precision and the query
embedding is reduced to 16 bits as well (line 216); the operands are never
promoted back, so there are encoder outputs whose 16-bit reduction changes the
query operand and whose code-computed score differs from the full-precision
score. -/
theorem f16_not_promoted :
    ∃ q v : List ℚ, codeQueryOperand q ≠ q ∧ codeSim q v ≠ fullSim q v := by
  refine ⟨[2049/2048, 1], [1, -1], ?_, ?_⟩
  · have h1 : codeQueryOperand [2049/2048, 1] = [1, 1] := by
      simp [codeQueryOperand, f16round_near_one, f16round_one]
    rw [h1]
    intro hcontra
    have := List.head_eq_of_cons_eq hcontra
    norm_num at this
  · rw [codeSim_cx_eval]
    exact (ne_of_gt fullSim_cx_pos).symm

/-- Witness for C10 at a concrete store with two records of id "a" around one
of id "b": a single remove of "a" deletes both matching records and keeps "b". -/
theorem remove_filters_all_matches_witness :
    ((remove_item "a" { items := [⟨"a", "p", [1], "clothes"⟩,
        ⟨"b", "q", [2], "clothes"⟩, ⟨"a", "r", [3], "clothes"⟩] }).2.1).items
      = [⟨"b", "q", [2], "clothes"⟩] := by
  have h := (remove_filters_all_matches "a" { items := [⟨"a", "p", [1], "clothes"⟩,
      ⟨"b", "q", [2], "clothes"⟩, ⟨"a", "r", [3], "clothes"⟩] }).1
  rw [h]
  simp

end FashionBot
